import Mathlib

/-!
Verification model of the TMM AI Ministry Assistant ingestion and query
pipeline.  Texts are modelled as lists of characters (`List Char`) and the
Python functions of `app.py`, `embedding_pipeline.py` and
`bible_processing/process_jsonl.py` are embedded as executable Lean
functions over that representation.  Embedding vectors only matter through
their length, so they are modelled as `List Int`.
-/

namespace TMM

/-- Whitespace test used by Python's `str.split()` (no arguments):
space, tab, newline, carriage return, form feed, vertical tab. -/
def isWs (c : Char) : Bool :=
  c = ' ' || c = '\t' || c = '\n' || c = '\r' || c = '\x0b' || c = '\x0c'

/-- Accumulator-based splitter driving `splitWords`; `acc` holds the
current word reversed. -/
def splitAux : List Char → List Char → List (List Char)
  | [], acc => if acc = [] then [] else [acc.reverse]
  | c :: cs, acc =>
    if isWs c then
      if acc = [] then splitAux cs [] else acc.reverse :: splitAux cs []
    else splitAux cs (c :: acc)

/-- Model of Python's `text.split()`: splits on runs of whitespace and
drops empty pieces. -/
def splitWords (l : List Char) : List (List Char) :=
  splitAux l []

/-- Model of Python's `" ".join(words)`. -/
def joinWords : List (List Char) → List Char
  | [] => []
  | [w] => w
  | w :: ws => w ++ ' ' :: joinWords ws

/-- A word is whitespace-free when none of its characters satisfy `isWs`. -/
def wsFree (w : List Char) : Bool :=
  w.all (fun c => !isWs c)

/-- Fuel-driven form of the sliding-window loop shared by both
`chunk_text` implementations: `for i in range(0, len(words), step):`
yielding `words[i:i+size]` and breaking once `i + size >= len(words)`.
The fuel only makes the recursion structural (hence kernel-reducible);
`slideAux_congr` shows any fuel at least `words.length - i` gives the
same result, and the position advances by `max 1 step` per turn, so the
fuel used by `slide` below never runs out first. -/
def slideAux : Nat → List (List Char) → Nat → Nat → Nat →
    List (List (List Char))
  | 0, _, _, _, _ => []
  | fuel + 1, words, size, step, i =>
    if i < words.length then
      if words.length ≤ i + size then [(words.drop i).take size]
      else ((words.drop i).take size) ::
        slideAux fuel words size step (i + max 1 step)
    else []

/-- The sliding-window loop, with enough fuel for every iteration. -/
def slide (words : List (List Char)) (size step i : Nat) :
    List (List (List Char)) :=
  slideAux (words.length - i) words size step i

/-- `app.py` line 154, `chunk_text(text, chunk_size, overlap)`:
split into words; empty word list yields nothing; short texts yield one
joined chunk; otherwise slide a window with step `max(1, size - overlap)`.
The result is the list of chunks the Python generator yields. -/
def chunk_text (text : List Char) (size overlap : Nat) : List (List Char) :=
  let words := splitWords text
  if words = [] then []
  else if words.length ≤ size then [joinWords words]
  else (slide words size (size - overlap) 0).map joinWords

/-- `embedding_pipeline.py` line 79, `chunk_text(text, chunk_size, overlap)`:
no empty-words guard (an empty word list still yields one `""` chunk) and
no clamping of the step.  When the loop is reached with
`overlap = size` the Python `range(0, n, 0)` raises `ValueError`,
modelled as `none`; with `overlap > size` the range

is empty and the generator yields nothing. -/
def chunk_text_pipeline (text : List Char) (size overlap : Nat) :
    Option (List (List Char)) :=
  let words := splitWords text
  if words.length ≤ size then some [joinWords words]
  else if overlap = size then none
  else if size < overlap then some []
  else some ((slide words size (size - overlap) 0).map joinWords)

/-- Reassembly of a chunk list: keep the first chunk's tokens whole and
drop the declared overlap from the front of every later chunk, then
concatenate. -/
def reconstruct (ov : Nat) (chunks : List (List Char)) : List (List Char) :=
  match chunks with
  | [] => []
  | c :: rest => splitWords c ++ (rest.map (fun c2 => (splitWords c2).drop ov)).flatten

/-- Model of Python's `s.strip()`: remove leading and trailing
whitespace. -/
def pyStrip (l : List Char) : List Char :=
  ((l.dropWhile isWs).reverse.dropWhile isWs).reverse

/-- Model of Python's `sep.join(pieces)`. -/
def pyJoin (sep : List Char) : List (List Char) → List Char
  | [] => []
  | [x] => x
  | x :: xs => x ++ sep ++ pyJoin sep xs

/-- `app.py` module constants (lines 30–36). -/
def VECTOR_DIM : Nat := 3072

def CHUNK_SIZE : Nat := 500

def CHUNK_OVERLAP : Nat := 100

def TOP_K : Nat := 10

/-- Table receiving chunk rows on the `app.py` path
(`supabase.table("documents")`, line 183). -/
def DOCUMENTS_TABLE : List Char := "documents".data

/-- `process_jsonl.py` config (lines 15–18). -/
def VECTOR_DIM_jsonl : Nat := 1536

def BATCH_SIZE : Nat := 100

/-- Table receiving chunk rows on the `process_jsonl.py` path
(`supabase.table("documents")`, line 100): the same collection the
`app.py` path writes with a different declared dimension. -/
def DOCUMENTS_TABLE_jsonl : List Char := "documents".data

/-- `app.py` line 165 `embed_text`, given the vector the provider
returned for the text: it warns (`log`) when the vector length differs
from `VECTOR_DIM` but still returns the vector unchanged, and every
caller inserts it unconditionally.  Result: (returned vector, warning
emitted). -/
def embed_text (emb : List Int) : List Int × Bool :=
  (emb, decide (emb.length ≠ VECTOR_DIM))

/-- A row of the `documents` table as written by
`app.py`'s `process_and_store` (line 183): content, embedding and the
metadata fields `source_file` / `chunk_index` / `file_type` (the file
type is derivable from the name and omitted from the model). -/
structure ChunkRow where
  content : List Char
  embedding : List Int
  source_file : List Char
  chunk_index : Nat
deriving DecidableEq

/-- Ingestion status returned by `process_and_store`. -/
inductive IngestStatus where
  | no_text : IngestStatus
  | success : Nat → IngestStatus
deriving DecidableEq

/-- `app.py` line 172 `process_and_store`: extract is done by the
caller, so the model starts from the extracted `text`.  Empty stripped
text returns `no_text`; otherwise the text is chunked with the module
defaults `(CHUNK_SIZE, CHUNK_OVERLAP)` and each chunk is embedded and
inserted inside a per-chunk `try`, so a failing chunk is skipped and the
loop continues.  `embedOf` gives the provider's vector for a chunk and
`ok i` whether chunk `i`'s embed+insert succeeds.  Returns the rows
appended to `documents` and the status. -/
def process_and_store (ok : Nat → Bool) (embedOf : List Char → List Int)
    (filename text : List Char) : List ChunkRow × IngestStatus :=
  if pyStrip text = [] then ([], IngestStatus.no_text)
  else
    let chunks := chunk_text text CHUNK_SIZE CHUNK_OVERLAP
    let rows := (chunks.enum.filter (fun p => ok p.1)).map
      (fun p => ⟨p.2, embedOf p.2, filename, p.1⟩)
    (rows, IngestStatus.success rows.length)

/-- `app.py` line 234 `upload_file`, restricted to its effect on the
`documents` table: the route uploads the raw bytes to object storage
(line 253, success modelled by `storageOk`; on failure it raises before
any chunk work), registers the file in `files`, and calls
`process_and_store`, which appends rows to whatever `documents` already
holds for this name.  No deletion of existing `documents` rows for the
name occurs anywhere on this path — the only `documents` delete lives in
the separate `/delete` route (line 276). -/
def upload_file (storageOk : Bool) (ok : Nat → Bool)
    (embedOf : List Char → List Int) (filename text : List Char)
    (documents : List ChunkRow) : List ChunkRow :=
  if storageOk then
    documents ++ (process_and_store ok embedOf filename text).1
  else documents

/-- One pre-tokenized record kept by `process_jsonl_file`'s loader
(`process_jsonl.py` line 111): the `text` field plus the optional
scripture provenance fields copied into metadata. -/
structure JChunk where
  text : List Char
  book : Option (List Char)
  chapter : Option (List Char)
  verse : Option (List Char)
  version : Option (List Char)
deriving DecidableEq

/-- A row of the `documents` table as written by
`process_jsonl.py`'s `upload_batch` (line 93). -/
structure JRow where
  content : List Char
  embedding : List Int
  source_file : List Char
  chunk_index : Nat
  book : Option (List Char)
  chapter : Option (List Char)
  verse : Option (List Char)
  version : Option (List Char)
deriving DecidableEq

/-- `process_jsonl.py` line 63 `embed_batch`: on provider success, one
vector per input text in order (the dimension check at line 67 only
prints a warning); on provider failure, a list of `None` placeholders of
the input's length.  `provider` models the external embeddings call,
`none` being a raised exception. -/
def embed_batch (provider : List (List Char) → Option (List (List Int)))
    (texts : List (List Char)) : List (Option (List Int)) :=
  match provider texts with
  | some embs => embs.map some
  | none => List.replicate texts.length none

/-- `process_jsonl.py` line 78 `upload_batch`: zips the batch's chunks
with their embeddings and numbers them from 0 *within the batch*
(`enumerate(zip(chunks, embeddings))`); entries with a falsy embedding
(`None` or an empty vector) or empty stripped text are skipped, the rest
become rows whose `chunk_index` is the within-batch position.  The final
single batch insert (line 100) is modelled as succeeding. -/
def upload_batch (chunks : List JChunk)
    (embeddings : List (Option (List Int))) (sourceName : List Char) :
    List JRow :=
  (chunks.zip embeddings).enum.filterMap (fun p =>
    match p.2.2 with
    | none => none
    | some e =>
      if e = [] then none
      else if pyStrip p.2.1.text = [] then none
      else some ⟨pyStrip p.2.1.text, e, sourceName, p.1,
        p.2.1.book, p.2.1.chapter, p.2.1.verse, p.2.1.version⟩)

/-- Batching loop of `process_jsonl_file` (line 128):
`for i in range(0, len(chunks), BATCH_SIZE)` taking
`chunks[i:i+BATCH_SIZE]`. -/
def toBatchesAux : Nat → List JChunk → List (List JChunk)
  | 0, _ => []
  | _, [] => []
  | fuel + 1, x :: xs =>
    ((x :: xs).take BATCH_SIZE) :: toBatchesAux fuel ((x :: xs).drop BATCH_SIZE)

def toBatches (l : List JChunk) : List (List JChunk) :=
  toBatchesAux l.length l

/-- `process_jsonl.py` line 107 `process_jsonl_file`, restricted to the
rows written to `documents`: the kept records are processed in batches
of `BATCH_SIZE`; each batch's stripped texts are embedded with
`embed_batch` and written with `upload_batch`. -/
def process_jsonl_file (provider : List (List Char) → Option (List (List Int)))
    (chunks : List JChunk) (sourceName : List Char) : List JRow :=
  ((toBatches chunks).map (fun b =>
    upload_batch b (embed_batch provider (b.map (fun c => pyStrip c.text)))
      sourceName)).flatten

/-- One row of the `match_documents_filtered` RPC result read by the
chat route (`app.py` lines 310–312): `content`, the top-level
`source_file` field and the `metadata.source_file` fallback (`none`
models a missing key). -/
structure MatchRow where
  content : List Char
  source_file : Option (List Char)
  metadata_source_file : Option (List Char)
deriving DecidableEq

/-- `metadata.get("source_file", "Unknown")` at `app.py` line 312. -/
def metaSource (m : MatchRow) : List Char :=
  match m.metadata_source_file with
  | some s => s
  | none => "Unknown".data

/-- `m.get("source_file") or m.get("metadata", \x7b\x7d).get("source_file",
"Unknown")` at `app.py` line 312: Python's `or` falls through on a
missing key and on the falsy empty string. -/
def sourceOf (m : MatchRow) : List Char :=
  match m.source_file with
  | some s => if s = [] then metaSource m else s
  | none => metaSource m

/-- The matches whose stripped content is non-empty: only these
contribute a context block and a source (`if c:` at `app.py`
line 313). -/
def usedMatches (ms : List MatchRow) : List MatchRow :=
  ms.filter (fun m => !(pyStrip m.content).isEmpty)

/-- Model of `srcs.add(s)` on the Python `set` at `app.py` line 315 read
back with `list(srcs)` at line 349.  CPython set iteration order is
unspecified (string hashing is randomized); the model fixes
first-insertion order as one concrete refinement.  Nothing in the route
sorts this list before returning it in the `sources` field — `sorted`
is applied only to the display line `src_txt` (line 318). -/
def pySetInsert (s : List (List Char)) (x : List Char) : List (List Char) :=
  if x ∈ s then s else s ++ [x]

/-- The accumulated source set of a match list, in first-insertion
order. -/
def chatSources (ms : List MatchRow) : List (List Char) :=
  (usedMatches ms).foldl (fun s m => pySetInsert s (sourceOf m)) []

/-- Lexicographic (code-point) order on strings, as used by Python's
`sorted` on `str`. -/
def strLe : List Char → List Char → Bool
  | [], _ => true
  | _ :: _, [] => false
  | a :: as, b :: bs => if a = b then strLe as bs else decide (a < b)

/-- The fixed response for an empty retrieval (`app.py` line 307). -/
def NO_MATERIALS : List Char :=
  "No relevant materials.\n**Sources:** None".data

/-- What the chat route returns to the caller: the `response` string,
the optional `sources` field (`none` models an absent key, as in the
empty-retrieval return at line 307), and whether the generative model
was invoked. -/
structure ChatResult where
  response : List Char
  sources : Option (List (List Char))
  modelCalled : Bool
deriving DecidableEq

/-- `app.py` line 281 `chat`, from the point where the RPC result
`matches` is known.  An empty result returns the fixed response with no
`sources` key and without calling the model (line 305–307); otherwise
the route builds one block per used match, accumulates the source set,
invokes the model on the assembled context+question prompt (`genModel`
models the completions call) and returns the stripped answer with the
sorted source display line appended, plus `list(srcs)` as `sources`. -/
def chat (ms : List MatchRow) (userInput : List Char)
    (genModel : List Char → List Char) : ChatResult :=
  if ms = [] then ⟨NO_MATERIALS, none, false⟩
  else
    let used := usedMatches ms
    let blocks := used.map (fun m =>
      "[source_file: ".data ++ sourceOf m ++ "]\n".data ++ pyStrip m.content)
    let srcs := chatSources ms
    let context := pyJoin "\n\n".data blocks
    let srcTxt := "**Sources:** ".data ++ pyJoin ", ".data
      ((srcs.mergeSort strLe).map (fun s => "`".data ++ s ++ "`".data))
    let ans := pyStrip (genModel
      ("Context:\n".data ++ context ++ "\n\nQuestion: ".data ++ userInput))
    ⟨ans ++ "\n\n".data ++ srcTxt, some srcs, true⟩

lemma wsFree_reverse {w : List Char} (h : wsFree w = true) :
    wsFree w.reverse = true := by
  simp only [wsFree, List.all_eq_true] at *
  intro c hc
  exact h c (List.mem_reverse.mp hc)

lemma splitAux_ok : ∀ (l acc : List Char), wsFree acc = true →
    ∀ w ∈ splitAux l acc, w ≠ [] ∧ wsFree w = true := by
  intro l
  induction l with
  | nil =>
    intro acc hacc w hw
    by_cases h0 : acc = []
    · simp [splitAux, h0] at hw
    · simp [splitAux, h0] at hw
      subst hw
      refine ⟨by simpa using h0, wsFree_reverse hacc⟩
  | cons c cs ih =>
    intro acc hacc w hw
    by_cases hc : isWs c = true
    · by_cases h0 : acc = []
      · simp [splitAux, hc, h0] at hw
        exact ih [] rfl w hw
      · simp [splitAux, hc, h0] at hw
        rcases hw with hw | hw
        · subst hw
          exact ⟨by simpa using h0, wsFree_reverse hacc⟩
        · exact ih [] rfl w hw
    · simp only [splitAux, hc, if_false, Bool.false_eq_true] at hw
      have hacc2 : wsFree (c :: acc) = true := by
        simp only [wsFree, List.all_cons, Bool.and_eq_true]
        exact ⟨by simp [hc], by simpa [wsFree] using hacc⟩
      exact ih (c :: acc) hacc2 w hw

/-- Every token produced by `splitWords` is non-empty and
whitespace-free. -/
lemma splitWords_ok (l : List Char) :
    ∀ w ∈ splitWords l, w ≠ [] ∧ wsFree w = true :=
  splitAux_ok l [] rfl

lemma splitAux_append : ∀ (w l acc : List Char), wsFree w = true →
    splitAux (w ++ l) acc = splitAux l (w.reverse ++ acc) := by
  intro w
  induction w with
  | nil => intro l acc _; simp
  | cons c cs ih =>
    intro l acc hw
    simp only [wsFree, List.all_cons, Bool.and_eq_true, Bool.not_eq_eq_eq_not,
      Bool.not_true] at hw
    obtain ⟨hc, hcs⟩ := hw
    have hc' : isWs c = false := by simpa using hc
    simp only [List.cons_append, splitAux, hc', Bool.false_eq_true, if_false,
      List.append_eq]
    rw [ih l (c :: acc) (by simpa [wsFree] using hcs)]
    simp

/-- Round trip: splitting the space-join of non-empty whitespace-free
words recovers exactly those words. -/
lemma splitWords_joinWords : ∀ ws : List (List Char),
    (∀ w ∈ ws, w ≠ [] ∧ wsFree w = true) →
    splitWords (joinWords ws) = ws := by
  intro ws
  induction ws with
  | nil => intro _; rfl
  | cons w ws ih =>
    intro h
    obtain ⟨hw1, hw2⟩ := h w (by simp)
    cases ws with
    | nil =>
      show splitWords w = [w]
      unfold splitWords
      have h1 := splitAux_append w [] [] hw2
      simp only [List.append_nil] at h1
      rw [h1]
      simp [splitAux, hw1]
    | cons w2 ws2 =>
      show splitWords (w ++ ' ' :: joinWords (w2 :: ws2)) = w :: w2 :: ws2
      unfold splitWords
      rw [splitAux_append w (' ' :: joinWords (w2 :: ws2)) [] hw2]
      simp only [List.append_nil]
      have hrev : w.reverse ≠ [] := by simpa using hw1
      simp only [splitAux, show isWs ' ' = true from rfl, if_true, hrev,
        if_false, List.reverse_reverse]
      have := ih (fun x hx => h x (by simp [hx]))
      simpa [splitWords] using this

/-- The fuel of `slideAux` is immaterial once it covers the remaining
word positions, so `slide` computes the whole loop. -/
lemma slideAux_congr : ∀ (fuel fuel2 : Nat) (words : List (List Char))
    (size step i : Nat), words.length - i ≤ fuel → words.length - i ≤ fuel2 →
    slideAux fuel words size step i = slideAux fuel2 words size step i := by
  intro fuel
  induction fuel with
  | zero =>
    intro fuel2 words size step i h1 h2
    have hi : ¬ i < words.length := by omega
    cases fuel2 with
    | zero => rfl
    | succ m => simp [slideAux, hi]
  | succ n ih =>
    intro fuel2 words size step i h1 h2
    by_cases hi : i < words.length
    · cases fuel2 with
      | zero => omega
      | succ m =>
        simp only [slideAux, hi, if_true]
        by_cases hend : words.length ≤ i + size
        · simp [hend]
        · simp only [hend, if_false]
          have hmax : 1 ≤ max 1 step := Nat.le_max_left 1 step
          rw [ih m words size step (i + max 1 step) (by omega) (by omega)]
    · cases fuel2 with
      | zero => simp [slideAux, hi]
      | succ m => simp [slideAux, hi]

lemma slideAux_mem : ∀ (fuel : Nat) (words : List (List Char))
    (size step i : Nat) (w : List (List Char)),
    w ∈ slideAux fuel words size step i →
    ∃ j, w = (words.drop j).take size := by
  intro fuel
  induction fuel with
  | zero =>
    intro words size step i w hw
    simp [slideAux] at hw
  | succ n ih =>
    intro words size step i w hw
    by_cases hi : i < words.length
    · simp only [slideAux, hi, if_true] at hw
      by_cases hend : words.length ≤ i + size
      · simp [hend] at hw
        exact ⟨i, hw⟩
      · simp [hend] at hw
        rcases hw with hw | hw
        · exact ⟨i, hw⟩
        · exact ih words size step (i + max 1 step) w hw
    · simp [slideAux, hi] at hw

/-- Length bound for the sliding loop: at most one chunk per word
position not yet consumed. -/
lemma slideAux_length_le : ∀ (fuel : Nat) (words : List (List Char))
    (size step i : Nat),
    (slideAux fuel words size step i).length ≤ words.length - i := by
  intro fuel
  induction fuel with
  | zero =>
    intro words size step i
    simp [slideAux]
  | succ n ih =>
    intro words size step i
    by_cases hi : i < words.length
    · simp only [slideAux, hi, if_true]
      by_cases hend : words.length ≤ i + size
      · simp only [hend, if_true, List.length_cons, List.length_nil]
        omega
      · simp only [hend, if_false, List.length_cons]
        have h1 : 1 ≤ max 1 step := Nat.le_max_left 1 step
        have := ih words size step (i + max 1 step)
        omega
    · simp [slideAux, hi]

/-- Dropping the overlap from every window emitted from position `i`
onward and concatenating yields exactly the words from position
`i + ov` on. -/
lemma slideAux_drop_flatten : ∀ (fuel : Nat) (words : List (List Char))
    (size ov i : Nat), ov < size → words.length - i ≤ fuel →
    ((slideAux fuel words size (size - ov) i).map (fun w => w.drop ov)).flatten
      = words.drop (i + ov) := by
  intro fuel
  induction fuel with
  | zero =>
    intro words size ov i hov hn
    simp only [slideAux, List.map_nil, List.flatten_nil]
    rw [List.drop_eq_nil_of_le (by omega)]
  | succ n ih =>
    intro words size ov i hov hn
    by_cases hi : i < words.length
    · simp only [slideAux, hi, if_true]
      have hst : max 1 (size - ov) = size - ov := by omega
      by_cases hend : words.length ≤ i + size
      · simp only [hend, if_true, List.map_cons, List.map_nil,
          List.flatten_cons, List.flatten_nil, List.append_nil]
        rw [List.drop_take, List.drop_drop]
        rw [List.take_of_length_le (by simp only [List.length_drop]; omega)]
      · simp only [hend, if_false, List.map_cons, List.flatten_cons, hst]
        rw [ih words size ov (i + (size - ov)) hov (by omega)]
        rw [List.drop_take, List.drop_drop]
        conv_rhs =>
          rw [← List.take_append_drop (size - ov) (List.drop (i + ov) words)]
        congr 1
        rw [List.drop_drop]
        congr 1
        omega
    · simp only [slideAux, hi, if_false, List.map_nil, List.flatten_nil]
      rw [List.drop_eq_nil_of_le (by omega)]

/-- Every window the sliding loop yields is a `take size` of some
suffix of the word list. -/
lemma slide_window_shape {words : List (List Char)} {size step i : Nat}
    {w : List (List Char)} (hw : w ∈ slide words size step i) :
    ∃ j, w = (words.drop j).take size :=
  slideAux_mem _ words size step i w hw

/-- Joining a window of `splitWords` output and re-splitting recovers
the window. -/
lemma splitWords_joinWords_window (text : List Char) {size step i : Nat}
    {w : List (List Char)}
    (hw : w ∈ slideAux ((splitWords text).length - i) (splitWords text) size step i) :
    splitWords (joinWords w) = w := by
  obtain ⟨j, rfl⟩ := slideAux_mem _ (splitWords text) size step i w hw
  exact splitWords_joinWords _ (fun x hx =>
    splitWords_ok text x (List.mem_of_mem_drop (List.mem_of_mem_take hx)))

/-- Core coverage argument for the windowed branch: with `ov < size` and
a word list longer than `size`, the first window followed by the
overlap-dropped remaining windows is exactly the word list. -/
lemma reconstruct_slide (words : List (List Char))
    (hgood : ∀ x ∈ words, x ≠ [] ∧ wsFree x = true)
    (size ov : Nat) (hov : ov < size) (hlen : size < words.length) :
    reconstruct ov ((slide words size (size - ov) 0).map joinWords) = words := by
  have h0 : 0 < words.length := by omega
  obtain ⟨f, hf⟩ : ∃ f, words.length - 0 = f + 1 := ⟨words.length - 1, by omega⟩
  have hnotend : ¬ words.length ≤ 0 + size := by omega
  have hst : max 1 (size - ov) = size - ov := by omega
  unfold slide
  rw [hf]
  simp only [slideAux, h0, if_true, hnotend, if_false, hst, List.map_cons,
    reconstruct]
  have hw0 : splitWords (joinWords ((words.drop 0).take size))
      = (words.drop 0).take size :=
    splitWords_joinWords _ (fun x hx =>
      hgood x (List.mem_of_mem_drop (List.mem_of_mem_take hx)))
  rw [hw0, List.map_map]
  have hmap : ∀ w ∈ slideAux f words size (size - ov) (0 + (size - ov)),
      ((fun c2 => (splitWords c2).drop ov) ∘ joinWords) w = w.drop ov := by
    intro w hw
    obtain ⟨j, rfl⟩ := slideAux_mem f words size (size - ov) _ w hw
    simp only [Function.comp_apply]
    rw [splitWords_joinWords _ (fun x hx =>
      hgood x (List.mem_of_mem_drop (List.mem_of_mem_take hx)))]
  rw [List.map_congr_left hmap]
  have hfl := slideAux_drop_flatten f words size ov (0 + (size - ov)) hov
    (by omega)
  rw [hfl]
  simp only [List.drop_zero, Nat.zero_add]
  have hsz : size - ov + ov = size := by omega
  rw [hsz, List.take_append_drop]

/-- Claim C1: for every text and `1 ≤ overlap < size`, concatenating
the chunks of `chunk_text` (both the `app.py` and the
`embedding_pipeline.py` implementation) with the declared overlap
removed from the front of every chunk after the first reconstructs
exactly the whitespace-token sequence of the input text. -/
theorem chunk_text_coverage (text : List Char) (size overlap : Nat)
    (_h1 : 1 ≤ overlap) (h2 : overlap < size) :
    reconstruct overlap (chunk_text text size overlap) = splitWords text ∧
    ∀ cs, chunk_text_pipeline text size overlap = some cs →
      reconstruct overlap cs = splitWords text := by
  constructor
  · by_cases hnil : splitWords text = []
    · simp [chunk_text, hnil, reconstruct]
    · by_cases hle : (splitWords text).length ≤ size
      · simp only [chunk_text, hnil, if_false, hle, if_true, reconstruct,
          List.map_nil, List.flatten_nil, List.append_nil]
        exact splitWords_joinWords _ (splitWords_ok text)
      · simp only [chunk_text, hnil, if_false, hle]
        exact reconstruct_slide _ (splitWords_ok text) size overlap h2
          (by omega)
  · intro cs hcs
    by_cases hle : (splitWords text).length ≤ size
    · simp only [chunk_text_pipeline, hle, if_true, Option.some.injEq] at hcs
      subst hcs
      simp only [reconstruct, List.map_nil, List.flatten_nil, List.append_nil]
      exact splitWords_joinWords _ (splitWords_ok text)
    · have hne : ¬ overlap = size := by omega
      have hlt : ¬ size < overlap := by omega
      simp only [chunk_text_pipeline, hle, if_false, hne, hlt,
        Option.some.injEq] at hcs
      subst hcs
      exact reconstruct_slide _ (splitWords_ok text) size overlap h2
        (by omega)

/-- Witness for C1 at text `"a b c"`, `size = 2`, `overlap = 1`. -/
theorem chunk_text_coverage_witness :
    (1 ≤ 1 ∧ 1 < 2) ∧
    (reconstruct 1 (chunk_text "a b c".data 2 1) = splitWords "a b c".data ∧
     ∀ cs, chunk_text_pipeline "a b c".data 2 1 = some cs →
       reconstruct 1 cs = splitWords "a b c".data) :=
  ⟨⟨by decide, by decide⟩, chunk_text_coverage "a b c".data 2 1 (by decide)
    (by decide)⟩

/-- Claim C2 counterexample: with `size = 2 ≥ 1`, `overlap = 2` and a
3-token text, `embedding_pipeline.py`'s `chunk_text` computes
`step = 0`, and `range(0, 3, 0)` raises `ValueError` (modelled as
`none`) — the generator errors instead of clamping, so the claim as
stated over both implementations fails. -/
theorem chunk_text_pipeline_step_zero_raises :
    chunk_text_pipeline "a b c".data 2 2 = none := by decide

/-- Claim C2 amended: `app.py`'s `chunk_text` clamps the step to at
least 1 and always terminates with at most `max 1 (token count)`
chunks; `embedding_pipeline.py`'s `chunk_text` never loops forever, and
whenever `overlap ≠ size` it completes without error with the same
bound (at `overlap = size` with more than `size` tokens it raises
`ValueError`; at `overlap > size` it yields no chunks). -/
theorem chunk_text_finite (text : List Char) (size overlap : Nat) :
    (chunk_text text size overlap).length ≤ max 1 (splitWords text).length ∧
    (overlap ≠ size →
      ∃ cs, chunk_text_pipeline text size overlap = some cs ∧
        cs.length ≤ max 1 (splitWords text).length) := by
  constructor
  · by_cases hnil : splitWords text = []
    · simp [chunk_text, hnil]
    · by_cases hle : (splitWords text).length ≤ size
      · simp only [chunk_text, hnil, if_false, hle, if_true,
          List.length_cons, List.length_nil]
        omega
      · simp only [chunk_text, hnil, if_false, hle, List.length_map]
        have := slideAux_length_le ((splitWords text).length - 0)
          (splitWords text) size (size - overlap) 0
        simp only [slide]
        omega
  · intro hne
    by_cases hle : (splitWords text).length ≤ size
    · refine ⟨[joinWords (splitWords text)], ?_, ?_⟩
      · simp [chunk_text_pipeline, hle]
      · simp only [List.length_cons, List.length_nil]
        omega
    · by_cases hlt : size < overlap
      · refine ⟨[], ?_, by simp⟩
        simp [chunk_text_pipeline, hle, hne, hlt]
      · refine ⟨(slide (splitWords text) size (size - overlap) 0).map
          joinWords, ?_, ?_⟩
        · simp [chunk_text_pipeline, hle, hne, hlt]
        · simp only [List.length_map]
          have := slideAux_length_le ((splitWords text).length - 0)
            (splitWords text) size (size - overlap) 0
          simp only [slide]
          omega

/-- Witness for C2's amended theorem at text `"a b c"`, `size = 2`,
`overlap = 1`. -/
theorem chunk_text_finite_witness :
    (chunk_text "a b c".data 2 1).length
      ≤ max 1 (splitWords "a b c".data).length ∧
    ∃ cs, chunk_text_pipeline "a b c".data 2 1 = some cs ∧
      cs.length ≤ max 1 (splitWords "a b c".data).length :=
  ⟨(chunk_text_finite "a b c".data 2 1).1,
   (chunk_text_finite "a b c".data 2 1).2 (by decide)⟩

set_option maxRecDepth 100000

/-- Claim C3 (code bug): there is no single corpus-wide embedding
dimension — the two ingestion paths write the same `documents`
collection while declaring 3072 (`app.py`) and 1536
(`process_jsonl.py`); moreover `app.py`'s `embed_text` returns a
wrong-length vector unchanged (warning only), and `process_and_store`
inserts it, so a 1536-length vector lands in the store the `app.py`
path declares to be 3072-dimensional. -/
theorem embedding_dimension_mismatch_bug :
    DOCUMENTS_TABLE = DOCUMENTS_TABLE_jsonl ∧
    VECTOR_DIM ≠ VECTOR_DIM_jsonl ∧
    (embed_text (List.replicate VECTOR_DIM_jsonl 0)).2 = true ∧
    (embed_text (List.replicate VECTOR_DIM_jsonl 0)).1
      = List.replicate VECTOR_DIM_jsonl 0 ∧
    ((process_and_store (fun _ => true)
        (fun _ => List.replicate VECTOR_DIM_jsonl 0)
        "f.pdf".data "hello world".data).1.map
        (fun r => r.embedding.length)) = [VECTOR_DIM_jsonl] := by
  refine ⟨rfl, by decide, ?_, rfl, ?_⟩
  · simp [embed_text, List.length_replicate, VECTOR_DIM, VECTOR_DIM_jsonl]
  · have hstrip : ¬ pyStrip "hello world".data = [] := by decide
    have hchunks : chunk_text "hello world".data CHUNK_SIZE CHUNK_OVERLAP
        = ["hello world".data] := by decide
    simp [process_and_store, hstrip, hchunks, List.length_replicate]

/-- Claim C4 (code bug): uploading the same one-chunk document twice
(object storage accepting both uploads) leaves two generations of rows
in `documents` — no delete of the previous generation precedes the
re-ingestion anywhere on the upload path, so the stored set is not the
second ingestion's chunk set and duplicate `(source_file, chunk_index)`
pairs survive. -/
theorem reingest_leaves_duplicates_bug :
    upload_file true (fun _ => true) (fun _ => [1]) "f.pdf".data
        "hello world".data
        (upload_file true (fun _ => true) (fun _ => [1]) "f.pdf".data
          "hello world".data [])
      = [⟨"hello world".data, [1], "f.pdf".data, 0⟩,
         ⟨"hello world".data, [1], "f.pdf".data, 0⟩] ∧
    upload_file true (fun _ => true) (fun _ => [1]) "f.pdf".data
        "hello world".data
        (upload_file true (fun _ => true) (fun _ => [1]) "f.pdf".data
          "hello world".data [])
      ≠ upload_file true (fun _ => true) (fun _ => [1]) "f.pdf".data
          "hello world".data [] := by decide

/-- Claim C5 (code bug): `upload_batch` numbers rows from 0 within each
100-record batch (`enumerate(zip(...))`), so a 101-record file whose
embeds all succeed stores `chunk_index` 0..99 followed by 0 again —
the indices for one `sourceFile` are not unique, against the declared
invariant. -/
theorem chunk_index_restarts_per_batch_bug :
    (process_jsonl_file (fun ts => some (ts.map (fun _ => [(1 : Int)])))
        (List.replicate 101 ⟨"v".data, none, none, none, none⟩)
        "kjv.jsonl".data).length = 101 ∧
    ¬ ((process_jsonl_file (fun ts => some (ts.map (fun _ => [(1 : Int)])))
        (List.replicate 101 ⟨"v".data, none, none, none, none⟩)
        "kjv.jsonl".data).map (fun r => r.chunk_index)).Nodup := by decide

/-- Claim C6 counterexample: on empty retrieval the route's JSON reply
has no `sources` key at all (`app.py` line 307) — modelled as `none` —
rather than an empty source list. -/
theorem empty_retrieval_no_sources_field :
    (chat [] "q".data (fun _ => [])).sources = none ∧
    (chat [] "q".data (fun _ => [])).sources ≠ some [] := by decide

/-- Claim C6 amended: for every query whose retrieval returns zero
fragments, the route returns the fixed `"No relevant materials."`
response (whose text itself declares `**Sources:** None`), omits the
`sources` field entirely, and never invokes the generative model. -/
theorem empty_retrieval_short_circuit (userInput : List Char)
    (genModel : List Char → List Char) :
    chat [] userInput genModel = ⟨NO_MATERIALS, none, false⟩ := rfl

lemma pySetInsert_mem (s : List (List Char)) (x y : List Char) :
    y ∈ pySetInsert s x ↔ y ∈ s ∨ y = x := by
  unfold pySetInsert
  by_cases hx : x ∈ s
  · simp only [hx, if_true]
    constructor
    · exact fun h => Or.inl h
    · rintro (h | rfl)
      · exact h
      · exact hx
  · simp [hx]

lemma pySetFold_mem : ∀ (l : List (List Char)) (s : List (List Char))
    (y : List Char), y ∈ l.foldl pySetInsert s ↔ y ∈ s ∨ y ∈ l := by
  intro l
  induction l with
  | nil => intro s y; simp
  | cons a l ih =>
    intro s y
    simp only [List.foldl_cons]
    rw [ih (pySetInsert s a) y, pySetInsert_mem]
    simp only [List.mem_cons]
    tauto

lemma pySetInsert_nodup (s : List (List Char)) (x : List Char)
    (hs : s.Nodup) : (pySetInsert s x).Nodup := by
  unfold pySetInsert
  by_cases hx : x ∈ s
  · simpa [hx]
  · simp only [hx, if_false]
    rw [List.nodup_append]
    exact ⟨hs, List.nodup_singleton x, by
      simpa [List.disjoint_singleton] using hx⟩

lemma pySetFold_nodup : ∀ (l : List (List Char)) (s : List (List Char)),
    s.Nodup → (l.foldl pySetInsert s).Nodup := by
  intro l
  induction l with
  | nil => intro s hs; simpa
  | cons a l ih => intro s hs; exact ih _ (pySetInsert_nodup s a hs)

lemma not_isEmpty_iff (l : List Char) : (!l.isEmpty) = true ↔ l ≠ [] := by
  cases l <;> simp

/-- The accumulated source set is exactly the `sourceOf` values of the
matches with non-empty stripped content. -/
lemma chatSources_mem (ms : List MatchRow) (y : List Char) :
    y ∈ chatSources ms ↔
      ∃ m ∈ ms, pyStrip m.content ≠ [] ∧ sourceOf m = y := by
  unfold chatSources
  rw [show (fun (s : List (List Char)) (m : MatchRow) =>
      pySetInsert s (sourceOf m)) = fun s m => pySetInsert s (sourceOf m)
    from rfl]
  rw [← List.foldl_map sourceOf pySetInsert (usedMatches ms) []]
  rw [pySetFold_mem]
  simp only [List.not_mem_nil, false_or, List.mem_map, usedMatches,
    List.mem_filter, not_isEmpty_iff]
  constructor
  · rintro ⟨m, ⟨hm, hne⟩, hsrc⟩
    exact ⟨m, hm, hne, hsrc⟩
  · rintro ⟨m, hm, hne, hsrc⟩
    exact ⟨m, ⟨hm, hne⟩, hsrc⟩

lemma chatSources_nodup (ms : List MatchRow) : (chatSources ms).Nodup := by
  unfold chatSources
  rw [← List.foldl_map sourceOf pySetInsert (usedMatches ms) []]
  exact pySetFold_nodup _ [] List.nodup_nil

/-- Claim C7 counterexample: with retrieved sources `b.pdf` then
`a.pdf` (non-empty contents), the `sources` value returned in the JSON
is `list(srcs)` in the set's iteration order — here modelled as
insertion order `[b.pdf, a.pdf]` — not the sorted `[a.pdf, b.pdf]` the
claim requires; the route applies `sorted` only to the display line of
the response text. -/
theorem chat_sources_unsorted :
    (chat [⟨"x".data, some "b.pdf".data, none⟩,
           ⟨"y".data, some "a.pdf".data, none⟩] "q".data
        (fun _ => "ans".data)).sources
      = some ["b.pdf".data, "a.pdf".data] ∧
    (chat [⟨"x".data, some "b.pdf".data, none⟩,
           ⟨"y".data, some "a.pdf".data, none⟩] "q".data
        (fun _ => "ans".data)).sources
      ≠ some ["a.pdf".data, "b.pdf".data] := by decide

/-- Claim C7 amended: for a non-empty retrieved set, the returned
`sources` value is the deduplicated set of `sourceFile` values of the
fragments actually used (those with non-empty stripped content),
derived from the retrieved set alone — independent of the generative
model — but returned in unspecified set order, not sorted (only the
textual source line in the response is sorted). -/
theorem chat_sources_from_retrieved (ms : List MatchRow)
    (userInput : List Char) (genModel genModel2 : List Char → List Char)
    (h : ms ≠ []) :
    (chat ms userInput genModel).sources = some (chatSources ms) ∧
    (chatSources ms).Nodup ∧
    (∀ y, y ∈ chatSources ms ↔
      ∃ m ∈ ms, pyStrip m.content ≠ [] ∧ sourceOf m = y) ∧
    (chat ms userInput genModel).sources
      = (chat ms userInput genModel2).sources := by
  refine ⟨?_, chatSources_nodup ms, fun y => chatSources_mem ms y, ?_⟩
  · simp [chat, h]
  · simp [chat, h]

/-- Witness for C7's amended theorem at one concrete match. -/
theorem chat_sources_from_retrieved_witness :
    (chat [⟨"x".data, some "s.pdf".data, none⟩] "q".data
        (fun _ => "a".data)).sources
      = some (chatSources [⟨"x".data, some "s.pdf".data, none⟩]) :=
  (chat_sources_from_retrieved [⟨"x".data, some "s.pdf".data, none⟩]
    "q".data (fun _ => "a".data) (fun _ => "b".data) (by decide)).1

/-- Claim C8 counterexample: `"a  b"` (two tokens, double space) has
token count `2 ≤ 5`, yet the single chunk yielded is the token join
`"a b"`, not the whole input text — both implementations normalize
whitespace by re-joining tokens. -/
theorem single_chunk_not_whole_text :
    (splitWords "a  b".data).length ≤ 5 ∧
    chunk_text "a  b".data 5 1 ≠ ["a  b".data] ∧
    chunk_text_pipeline "a  b".data 5 1 ≠ some ["a  b".data] := by decide

/-- Claim C8 amended: for a text with at least one token and token
count ≤ `size`, both implementations yield exactly one chunk equal to
the single-space join of the text's tokens (equal to the whole text
only when the text is already space-normalized); `app.py`'s version
yields no chunk at all for token-free text, while
`embedding_pipeline.py`'s yields one empty chunk. -/
theorem chunk_text_boundary_single (text : List Char) (size overlap : Nat)
    (hne : splitWords text ≠ []) (hle : (splitWords text).length ≤ size) :
    chunk_text text size overlap = [joinWords (splitWords text)] ∧
    chunk_text_pipeline text size overlap
      = some [joinWords (splitWords text)] := by
  constructor
  · simp [chunk_text, hne, hle]
  · simp [chunk_text_pipeline, hle]

/-- Witness for C8's amended theorem at text `"hi there"`, `size = 5`,
`overlap = 2`. -/
theorem chunk_text_boundary_single_witness :
    (splitWords "hi there".data ≠ [] ∧
      (splitWords "hi there".data).length ≤ 5) ∧
    (chunk_text "hi there".data 5 2
        = [joinWords (splitWords "hi there".data)] ∧
     chunk_text_pipeline "hi there".data 5 2
        = some [joinWords (splitWords "hi there".data)]) :=
  ⟨⟨by decide, by decide⟩,
   chunk_text_boundary_single "hi there".data 5 2 (by decide) (by decide)⟩

/-- Claim C9: with `1 ≤ overlap < size`, every chunk yielded by either
`chunk_text` implementation has at most `size` whitespace tokens. -/
theorem chunk_token_bound (text : List Char) (size overlap : Nat)
    (_h1 : 1 ≤ overlap) (h2 : overlap < size) :
    (∀ c ∈ chunk_text text size overlap, (splitWords c).length ≤ size) ∧
    ∀ cs, chunk_text_pipeline text size overlap = some cs →
      ∀ c ∈ cs, (splitWords c).length ≤ size := by
  have key : ∀ (step i : Nat) (c : List Char),
      c ∈ (slide (splitWords text) size step i).map joinWords →
      (splitWords c).length ≤ size := by
    intro step i c hc
    rw [List.mem_map] at hc
    obtain ⟨w, hw, rfl⟩ := hc
    rw [splitWords_joinWords_window text hw]
    obtain ⟨j, rfl⟩ := slideAux_mem _ (splitWords text) size step i w hw
    exact List.length_take_le _ _
  have hshort : (splitWords text).length ≤ size →
      (splitWords (joinWords (splitWords text))).length ≤ size := by
    intro hle
    rw [splitWords_joinWords _ (splitWords_ok text)]
    exact hle
  constructor
  · intro c hc
    by_cases hnil : splitWords text = []
    · simp [chunk_text, hnil] at hc
    · by_cases hle : (splitWords text).length ≤ size
      · simp only [chunk_text, hnil, if_false, hle, if_true,
          List.mem_singleton] at hc
        subst hc
        exact hshort hle
      · simp only [chunk_text, hnil, if_false, hle] at hc
        exact key (size - overlap) 0 c hc
  · intro cs hcs c hc
    by_cases hle : (splitWords text).length ≤ size
    · simp only [chunk_text_pipeline, hle, if_true, Option.some.injEq] at hcs
      subst hcs
      simp only [List.mem_singleton] at hc
      subst hc
      exact hshort hle
    · have hne : ¬ overlap = size := by omega
      have hlt : ¬ size < overlap := by omega
      simp only [chunk_text_pipeline, hle, if_false, hne, hlt,
        Option.some.injEq] at hcs
      subst hcs
      exact key (size - overlap) 0 c hc

/-- Witness for C9 at text `"a b c"`, `size = 2`, `overlap = 1`. -/
theorem chunk_token_bound_witness :
    (1 ≤ 1 ∧ 1 < 2) ∧
    ((∀ c ∈ chunk_text "a b c".data 2 1, (splitWords c).length ≤ 2) ∧
     ∀ cs, chunk_text_pipeline "a b c".data 2 1 = some cs →
       ∀ c ∈ cs, (splitWords c).length ≤ 2) :=
  ⟨⟨by decide, by decide⟩,
   chunk_token_bound "a b c".data 2 1 (by decide) (by decide)⟩

/-- Claim C10: `embed_batch` always returns one entry per input text —
on provider failure a list of `None` of the input's length, on success
the provider's vectors in order — so that `upload_batch`'s positional
zip pairs each chunk with its own embedding; the success case assumes
the provider's documented contract of one vector per input. -/
theorem embed_batch_alignment
    (provider : List (List Char) → Option (List (List Int)))
    (texts : List (List Char))
    (hp : ∀ vs, provider texts = some vs → vs.length = texts.length) :
    (embed_batch provider texts).length = texts.length ∧
    (provider texts = none →
      embed_batch provider texts = List.replicate texts.length none) ∧
    ∀ vs, provider texts = some vs →
      embed_batch provider texts = vs.map some := by
  cases hpt : provider texts with
  | none =>
    refine ⟨?_, fun _ => ?_, fun vs hvs => ?_⟩
    · simp [embed_batch, hpt, List.length_replicate]
    · simp [embed_batch, hpt]
    · cases hvs
  | some vs =>
    refine ⟨?_, fun hnone => ?_, fun vs2 hvs2 => ?_⟩
    · simp [embed_batch, hpt, hp vs hpt]
    · cases hnone
    · cases hvs2
      simp [embed_batch, hpt]

/-- Witness for C10 at a two-text batch with a well-behaved provider. -/
theorem embed_batch_alignment_witness :
    (embed_batch (fun _ => some [[(1 : Int)], [2]])
        ["a".data, "b".data]).length
      = (["a".data, "b".data] : List (List Char)).length :=
  (embed_batch_alignment (fun _ => some [[(1 : Int)], [2]])
    ["a".data, "b".data] (fun vs h => by cases h; rfl)).1

end TMM
